import Mathlib

/-!
Shallow embedding of the `active_viscous_shell` mesh-viewer core:

* the Mesh Dataset data model (`Timestep`, `MeshData`) from the shared
  TypeScript interfaces;
* the attribute derivation performed by `CellMesh` in
  `src/mesh-viewer/app/components/MeshViewer.tsx` (position flattening,
  index flattening, z-extrema scan and the per-vertex colormaps);
* the streaming loader `loadData` from the `Home` component
  (`src/unnamed/part_000`), modelled as the sequence of progress /
  data-set events it emits together with its error outcome;
* the playback and input state machine of `Home` (animation-loop timer,
  keyboard handler, slider / `onIndexChange` path).

JavaScript numbers are modelled as `ℚ` (the claims under study involve only
exact rational arithmetic); `Math.sqrt`, a floating-point primitive used
only by the `curvature` colormap, is passed in as an explicit function
parameter `msqrt` so that every definition stays executable — none of the
verified properties depend on its values.
-/

namespace AVS

/-- One vertex coordinate triple `(x, y, z)` (`points[i]` in the data). -/
abbrev Point3 := ℚ × ℚ × ℚ

/-- One triangle as a triple of point indices (`triangles[i]` in the data). -/
abbrev Tri := ℕ × ℕ × ℕ

/-- The `z` component of a point (`p[2]` in the source). -/
def zOf (p : Point3) : ℚ := p.2.2

/-- Structure `TimestepData` from `MeshViewer.tsx` / the `timesteps` entries of
`MeshData` in `part_000`. -/
structure Timestep where
  index : ℤ
  time : ℚ
  points : List Point3
  triangles : List Tri
  deriving Repr, DecidableEq

/-- The `metadata` record of the dataset. -/
structure Metadata where
  total_timesteps : ℕ
  exported_timesteps : ℕ
  time_range : ℚ × ℚ
  deriving Repr, DecidableEq

/-- Structure `MeshData` — the parsed dataset. -/
structure MeshData where
  timesteps : List Timestep
  metadata : Metadata
  deriving Repr, DecidableEq

/-- The color modes of the viewer. -/
inductive ColorMode where
  | height
  | curvature
  | solid
  deriving Repr, DecidableEq

/-! ### Attribute deriver (`CellMesh` in `MeshViewer.tsx`)

`CellMesh` flattens `timestep.points` into `posArray`, flattens
`timestep.triangles` into `idxArray`, scans the points once for the z
extrema, and then assigns one RGB triple per vertex according to the
color mode.  The flat buffers are modelled as Lean lists. -/

/-- The `posArray` flattening: `for (const p of timestep.points) posArray.push(p[0], p[1], p[2])`. -/
def posArrayOf (pts : List Point3) : List ℚ :=
  pts.flatMap (fun p => [p.1, p.2.1, p.2.2])

/-- The `idxArray` flattening: `for (const t of timestep.triangles) idxArray.push(t[0], t[1], t[2])`. -/
def idxArrayOf (tris : List Tri) : List ℕ :=
  tris.flatMap (fun t => [t.1, t.2.1, t.2.2])

/-- The `zMin` scan: the JS loop starts from `Infinity` and replaces on
`p[2] < zMin`, so on a nonempty list it equals a fold started at the first
point's z.  The empty case (where the JS value would stay `Infinity`) is
mapped to `0`; it is irrelevant because an empty point list produces an
empty color buffer. -/
def zMinOf : List Point3 → ℚ
  | [] => 0
  | p :: rest => rest.foldl (fun m q => if zOf q < m then zOf q else m) (zOf p)

/-- The `zMax` scan, dual to `zMinOf`. -/
def zMaxOf : List Point3 → ℚ
  | [] => 0
  | p :: rest => rest.foldl (fun m q => if m < zOf q then zOf q else m) (zOf p)

/-- The range `const zRange = zMax - zMin || 1` — the JS `||` replaces a zero
difference by `1`. -/
def zRangeOf (pts : List Point3) : ℚ :=
  if zMaxOf pts - zMinOf pts = 0 then 1 else zMaxOf pts - zMinOf pts

/-- The per-vertex color assignment of `CellMesh`: `t = (point[2] - zMin) / zRange`
is computed first, then the branch on the color mode.  `msqrt` stands for
`Math.sqrt` (used only by the `curvature` branch). -/
def vertexColor (msqrt : ℚ → ℚ) (mode : ColorMode) (zmin zrange : ℚ) (p : Point3) :
    ℚ × ℚ × ℚ :=
  let t := (zOf p - zmin) / zrange
  match mode with
  | .height =>
      (t * (9/10) + 1/10,
       3/10 + (4/10) * (1 - |t - 1/2| * 2),
       (1 - t) * (9/10) + 1/10)
  | .curvature =>
      let r := msqrt (p.1 ^ 2 + p.2.1 ^ 2)
      let rNorm := min (r / (12/10)) 1
      (2/10 + rNorm * (7/10),
       8/10 - rNorm * (5/10),
       9/10 - rNorm * (6/10))
  | .solid => (3/10, 7/10, 9/10)

/-- The flat `colors` buffer: one RGB triple per point, written at
`i*3 .. i*3+2` in point order. -/
def colorsOf (msqrt : ℚ → ℚ) (mode : ColorMode) (pts : List Point3) : List ℚ :=
  pts.flatMap (fun p =>
    let c := vertexColor msqrt mode (zMinOf pts) (zRangeOf pts) p
    [c.1, c.2.1, c.2.2])

/-- The derived attribute buffers produced by `CellMesh`'s `useMemo`. -/
structure AttributeBuffers where
  positions : List ℚ
  indices : List ℕ
  colors : List ℚ
  deriving Repr, DecidableEq

/-- The whole geometry construction of `CellMesh`: positions, indices and
colors, with no validation of any triangle index.  It is a total function:
construction never fails. -/
def derive (msqrt : ℚ → ℚ) (ts : Timestep) (mode : ColorMode) : AttributeBuffers :=
  { positions := posArrayOf ts.points
    indices := idxArrayOf ts.triangles
    colors := colorsOf msqrt mode ts.points }

/-! ### Streaming loader (`loadData` in `Home`, `src/unnamed/part_000`)

`loadData` emits progress updates through `setLoadProgress` and publishes
the parsed dataset through `setData`; on failure the `catch` block records
an error message (carrying the HTTP status for a non-success response) and
no dataset is ever published.  We model one call of `loadData` as the list
of observable events it produces, in order, together with its error
outcome.  The body of the response is modelled by its parse result
(`payload = none` means `JSON.parse` / `response.json()` throws). -/

/-- A transport response, as observed by `loadData`.  `contentLength` is the
numeric value of the `content-length` header when present and numeric
(`parseInt` of a non-numeric header yields `NaN`, which behaves like an
absent header in the `total &&` test); `chunks` are the byte counts of the
chunks `reader.read()` delivers; `hasBody` is `response.body != null`. -/
structure Response where
  ok : Bool
  status : ℕ
  contentLength : Option ℕ
  hasBody : Bool
  chunks : List ℕ
  payload : Option MeshData
  deriving Repr, DecidableEq

/-- Terminal failure of a load attempt: the thrown
`Failed to load mesh data: status` error, or a JSON parse failure. -/
inductive LoadError where
  | network (status : ℕ)
  | parse
  deriving Repr, DecidableEq

/-- Observable events of one `loadData` call: a `setLoadProgress(p)` update
or the `setData(meshData)` publication of the completed dataset. -/
inductive LoadEvent where
  | progress (p : ℚ)
  | dataSet
  deriving Repr, DecidableEq

/-- Running totals of `received` after each chunk:
`received += value.length` before each progress report. -/
def cumSums (acc : ℕ) : List ℕ → List ℕ
  | [] => []
  | c :: rest => (acc + c) :: cumSums (acc + c) rest

/-- The per-chunk progress reports:
`setLoadProgress(10 + (received / total) * 80)`. -/
def chunkProgress (total : ℕ) (chunks : List ℕ) : List LoadEvent :=
  (cumSums 0 chunks).map (fun received : ℕ =>
    .progress (10 + ((received : ℚ) / (total : ℚ)) * 80))

/-- One call of `loadData`: the ordered event trace and the error outcome.
Mirrors the source control flow: `setLoadProgress(10)`; fetch; non-ok
status throws; with a usable content length the chunked read loop reports
per-chunk progress, then `setLoadProgress(95)` after decoding, then
`JSON.parse` (which may throw), then `setData`; otherwise the fallback
`response.json()` path; finally `setLoadProgress(100)`. -/
def loadData (r : Response) : List LoadEvent × Option LoadError :=
  if r.ok = false then
    ([.progress 10], some (.network r.status))
  else
    let total := r.contentLength.getD 0
    if total ≠ 0 ∧ r.hasBody = true then
      match r.payload with
      | none =>
          (.progress 10 :: chunkProgress total r.chunks ++ [.progress 95],
           some .parse)
      | some _ =>
          (.progress 10 :: chunkProgress total r.chunks ++
             [.progress 95, .dataSet, .progress 100],
           none)
    else
      match r.payload with
      | none => ([.progress 10], some .parse)
      | some _ => ([.progress 10, .dataSet, .progress 100], none)

/-- The progress values of a trace, in emission order. -/
def progressValues : List LoadEvent → List ℚ
  | [] => []
  | .progress p :: rest => p :: progressValues rest
  | .dataSet :: rest => progressValues rest

/-! ### Playback / input state machine (`Home` in `src/unnamed/part_000`)

The relevant `useState` cells of `Home` are gathered in one record.  The
animation-loop `useEffect` installs a timer with period
`100 / playbackSpeed` ms that exists only while `isPlaying` (and data is
loaded); its callback is `tick`.  The keyboard handler, the slider and the
transport buttons dispatch through `keyStep` / `onIndexChange`. -/

/-- The playback / view state cells of `Home`. -/
structure HomeState where
  currentIndex : ℤ
  isPlaying : Bool
  playbackSpeed : ℚ
  autoRotate : Bool
  showWireframe : Bool
  colorMode : ColorMode
  deriving Repr, DecidableEq

/-- Initial values of the `useState` cells of `Home`. -/
def initialHomeState : HomeState :=
  { currentIndex := 0
    isPlaying := false
    playbackSpeed := 1
    autoRotate := true
    showWireframe := false
    colorMode := .height }

/-- The timer period of the animation loop: `100 / playbackSpeed` ms. -/
def intervalMs (speed : ℚ) : ℚ := 100 / speed

/-- One firing of the animation-loop timer (`setInterval` callback):
`next = prev + 1`; if `next >= data.timesteps.length` it pauses and keeps
`prev`, otherwise it advances to `next`.  The `isPlaying` guard reflects
that the interval only exists while playing (the `useEffect` returns early
and clears the interval otherwise). -/
def tick (len : ℕ) (s : HomeState) : HomeState :=
  if s.isPlaying = true then
    if (len : ℤ) ≤ s.currentIndex + 1 then
      { s with isPlaying := false }
    else
      { s with currentIndex := s.currentIndex + 1 }
  else s

/-- Keys dispatched by `handleKeyDown`; `other` covers every key the
`switch` does not mention. -/
inductive Key where
  | space
  | arrowLeft
  | arrowRight
  | homeKey
  | endKey
  | keyR
  | keyW
  | other
  deriving Repr, DecidableEq

/-- The `switch (e.key)` body of `handleKeyDown`, given the length of
`data.timesteps`. -/
def keyStep (len : ℕ) (k : Key) (s : HomeState) : HomeState :=
  match k with
  | .space => { s with isPlaying := !s.isPlaying }
  | .arrowLeft => { s with currentIndex := max 0 (s.currentIndex - 1) }
  | .arrowRight => { s with currentIndex := min ((len : ℤ) - 1) (s.currentIndex + 1) }
  | .homeKey => { s with currentIndex := 0 }
  | .endKey => { s with currentIndex := (len : ℤ) - 1 }
  | .keyR => { s with autoRotate := !s.autoRotate }
  | .keyW => { s with showWireframe := !s.showWireframe }
  | .other => s

/-- The handler `handleKeyDown`: `if (!data) return` — before the dataset is loaded the
handler is a no-op; otherwise it dispatches on the key. -/
def handleKeyDown (data : Option MeshData) (k : Key) (s : HomeState) : HomeState :=
  match data with
  | none => s
  | some d => keyStep d.timesteps.length k s

/-- The `onIndexChange` path: `Home` passes `setCurrentIndex` itself as
`onIndexChange`, and the slider calls `onIndexChange(parseInt(e.target.value))`
— the value is stored as-is, with no clamping. -/
def onIndexChange (i : ℤ) (s : HomeState) : HomeState :=
  { s with currentIndex := i }

/-- A user/timer input reaching the playback state: a keyboard action, a
slider drag (whose value the DOM bounds to `[0, totalFrames - 1]`), or one
firing of the animation timer. -/
inductive UIAction where
  | key (k : Key)
  | slider (v : ℤ)
  | timerTick
  deriving Repr, DecidableEq

/-- Dispatch of one input on the state. -/
def stepAction (len : ℕ) (a : UIAction) (s : HomeState) : HomeState :=
  match a with
  | .key k => keyStep len k s
  | .slider v => onIndexChange v s
  | .timerTick => tick len s

/-- Slider values are bound to `[0, totalFrames - 1]` by the
`min={0} max={totalFrames - 1}` attributes of the range input; every other
action is unconstrained. -/
def validAction (len : ℕ) : UIAction → Prop
  | .slider v => 0 ≤ v ∧ v ≤ (len : ℤ) - 1
  | _ => True

instance (len : ℕ) (a : UIAction) : Decidable (validAction len a) := by
  cases a <;> simp [validAction] <;> infer_instance

/-- Run a list of inputs from a state. -/
def runActions (len : ℕ) (acts : List UIAction) (s : HomeState) : HomeState :=
  acts.foldl (fun st a => stepAction len a st) s

/-! ### Concrete sample inputs (used to exercise the theorems) -/

/-- A one-timestep dataset: 4 points, 2 triangles. -/
def sampleMeshData : MeshData :=
  { timesteps :=
      [{ index := 0
         time := 0
         points := [(0, 0, 0), (1, 0, 0), (0, 1, 0), (0, 0, 1)]
         triangles := [(0, 1, 2), (0, 1, 3)] }]
    metadata :=
      { total_timesteps := 1, exported_timesteps := 1, time_range := (0, 0) } }

/-- A timestep whose single triangle references points `5, 6, 7` although
only one point exists — probes the (absent) index validation. -/
def badTimestep : Timestep :=
  { index := 0, time := 0, points := [(0, 0, 0)], triangles := [(5, 6, 7)] }

/-- A point cloud in which every vertex shares the same z-coordinate. -/
def constZPts : List Point3 := [(0, 0, 5)]

/-- A two-point cloud with distinct z-coordinates. -/
def twoZPts : List Point3 := [(0, 0, 0), (0, 0, 2)]

/-- A playing state (the initial state after pressing play). -/
def sPlay : HomeState := { initialHomeState with isPlaying := true }

/-- A streamable OK response: content length 4, chunks of 1 and 3 bytes,
well-formed payload. -/
def rStream : Response :=
  { ok := true, status := 200, contentLength := some 4, hasBody := true
    chunks := [1, 3], payload := some sampleMeshData }

/-- An OK response without a `content-length` header. -/
def rNoLength : Response :=
  { ok := true, status := 200, contentLength := none, hasBody := true
    chunks := [], payload := some sampleMeshData }

/-- A failed response: HTTP 404. -/
def rNotFound : Response :=
  { ok := false, status := 404, contentLength := none, hasBody := false
    chunks := [], payload := none }

/-- An OK response whose body is not valid JSON. -/
def rMalformed : Response :=
  { ok := true, status := 200, contentLength := some 4, hasBody := true
    chunks := [4], payload := none }

/-! ## Theorems -/

/-! ### Generic helper lemmas -/

/-- A `flatMap` that emits three entries per element triples the length. -/
theorem length_flatMap_three {α β : Type _} (l : List α) (f : α → List β)
    (hf : ∀ x, (f x).length = 3) : (l.flatMap f).length = 3 * l.length := by
  induction l with
  | nil => simp
  | cons x xs ih =>
      simp only [List.flatMap_cons, List.length_append, ih, List.length_cons, hf]
      ring

/-- The timer callback never decreases `currentIndex`. -/
theorem tick_index_mono (len : ℕ) (s : HomeState) :
    s.currentIndex ≤ (tick len s).currentIndex := by
  simp only [tick]
  split_ifs <;> simp

/-! ### C10 — keyboard handler is a no-op before the dataset loads -/

/-- C10: for every keyboard event delivered while `data` is still `null`,
`handleKeyDown` returns the state unchanged — `currentIndex`, `isPlaying`,
`autoRotate` and `showWireframe` are all left as they were. -/
theorem keydown_noop_before_load (k : Key) (s : HomeState) :
    handleKeyDown none k s = s ∧
    (handleKeyDown none k s).currentIndex = s.currentIndex ∧
    (handleKeyDown none k s).isPlaying = s.isPlaying ∧
    (handleKeyDown none k s).autoRotate = s.autoRotate ∧
    (handleKeyDown none k s).showWireframe = s.showWireframe :=
  ⟨rfl, rfl, rfl, rfl, rfl⟩

/-! ### C8 — derived buffer lengths -/

/-- C8: for every timestep and every color mode, the derived buffers satisfy
`positions.length = 3 * points.length`, `indices.length = 3 * triangles.length`
and `colors.length = 3 * points.length`. -/
theorem derive_buffer_lengths (msqrt : ℚ → ℚ) (ts : Timestep) (mode : ColorMode) :
    (derive msqrt ts mode).positions.length = 3 * ts.points.length ∧
    (derive msqrt ts mode).indices.length = 3 * ts.triangles.length ∧
    (derive msqrt ts mode).colors.length = 3 * ts.points.length := by
  refine ⟨?_, ?_, ?_⟩
  · exact length_flatMap_three _ _ (fun x => rfl)
  · exact length_flatMap_three _ _ (fun x => rfl)
  · exact length_flatMap_three _ _ (fun x => rfl)

/-! ### C1 — the `onIndexChange` path does not clamp -/

/-- C1 counterexample: the claim says `setIndex(-5)` yields `currentIndex == 0`
and `setIndex(lastIndex + 50)` yields `currentIndex == lastIndex`.  With
`lastIndex = 9`, the code's `onIndexChange` path (`setCurrentIndex` passed
through unmodified) stores `-5` and `59` verbatim instead. -/
theorem setIndex_no_clamp_counterexample :
    (onIndexChange (-5) initialHomeState).currentIndex = -5 ∧
    (onIndexChange (-5) initialHomeState).currentIndex ≠ 0 ∧
    (onIndexChange (9 + 50) initialHomeState).currentIndex = 59 ∧
    (onIndexChange (9 + 50) initialHomeState).currentIndex ≠ 9 :=
  ⟨rfl, by decide, rfl, by decide⟩

/-- C1 (amended): `onIndexChange(i)` stores `i` verbatim — no clamping is
performed anywhere on this path — and leaves `isPlaying` untouched; for
slider inputs, which the range input bounds to `[0, lastIndex]` by
construction, the stored index therefore stays within `[0, lastIndex]`. -/
theorem onIndexChange_passthrough (i : ℤ) (len : ℕ) (s : HomeState)
    (h0 : 0 ≤ i) (h1 : i ≤ (len : ℤ) - 1) :
    (onIndexChange i s).currentIndex = i ∧
    (onIndexChange i s).isPlaying = s.isPlaying ∧
    0 ≤ (onIndexChange i s).currentIndex ∧
    (onIndexChange i s).currentIndex ≤ (len : ℤ) - 1 :=
  ⟨rfl, rfl, h0, h1⟩

/-- C1 witness: instantiation at `i = 3`, ten timesteps. -/
theorem onIndexChange_passthrough_witness :
    (onIndexChange 3 initialHomeState).currentIndex = 3 ∧
    (onIndexChange 3 initialHomeState).isPlaying = initialHomeState.isPlaying ∧
    0 ≤ (onIndexChange 3 initialHomeState).currentIndex ∧
    (onIndexChange 3 initialHomeState).currentIndex ≤ ((10 : ℕ) : ℤ) - 1 :=
  onIndexChange_passthrough 3 10 initialHomeState (by decide) (by decide)

/-! ### C2 — the animation-loop timer -/

/-- C2: while playing, each timer firing advances `currentIndex` by exactly 1;
a firing that would advance past the last valid index leaves the index where
it is (in particular clamped at the last index) and flips `isPlaying` off;
and iterated firings never decrease the index, so playback never wraps back
to 0. -/
theorem playing_tick_advances (len : ℕ) (s : HomeState) (h : s.isPlaying = true) :
    (s.currentIndex + 1 < (len : ℤ) →
      tick len s = { s with currentIndex := s.currentIndex + 1 }) ∧
    ((len : ℤ) ≤ s.currentIndex + 1 →
      tick len s = { s with isPlaying := false }) ∧
    ∀ n : ℕ, s.currentIndex ≤ ((tick len)^[n] s).currentIndex := by
  refine ⟨fun hlt => ?_, fun hge => ?_, ?_⟩
  · simp [tick, h, not_le.mpr hlt]
  · simp [tick, h, hge]
  · intro n
    induction n with
    | zero => simp
    | succ m ih =>
        rw [Function.iterate_succ_apply']
        exact le_trans ih (tick_index_mono len _)

/-- C2 witness: from a playing state at index 0 with three timesteps, one
firing advances to index 1. -/
theorem playing_tick_advances_witness :
    tick 3 sPlay = { sPlay with currentIndex := sPlay.currentIndex + 1 } :=
  (playing_tick_advances 3 sPlay rfl).1 (by decide)

/-! ### C9 — `currentIndex` stays in `[0, timesteps.length - 1]` -/

/-- Every single input (an arbitrary key, a slider value within the range
input's bounds, or a timer firing) keeps `currentIndex` within
`[0, len - 1]`. -/
theorem stepAction_preserves_range (len : ℕ) (h1 : 1 ≤ len) (a : UIAction)
    (ha : validAction len a) (s : HomeState)
    (hs : 0 ≤ s.currentIndex ∧ s.currentIndex ≤ (len : ℤ) - 1) :
    0 ≤ (stepAction len a s).currentIndex ∧
    (stepAction len a s).currentIndex ≤ (len : ℤ) - 1 := by
  obtain ⟨hs0, hs1⟩ := hs
  have hlen : (1 : ℤ) ≤ (len : ℤ) := by exact_mod_cast h1
  cases a with
  | key k =>
      cases k <;> simp only [stepAction, keyStep] <;> refine ⟨?_, ?_⟩ <;> omega
  | slider v =>
      obtain ⟨hv0, hv1⟩ := ha
      exact ⟨hv0, hv1⟩
  | timerTick =>
      simp only [stepAction, tick]
      split_ifs <;> (try simp) <;> omega

/-- Running any sequence of valid inputs preserves the index range. -/
theorem runActions_preserves_range (len : ℕ) (h1 : 1 ≤ len) (acts : List UIAction)
    (hv : ∀ a ∈ acts, validAction len a) (s : HomeState)
    (hs : 0 ≤ s.currentIndex ∧ s.currentIndex ≤ (len : ℤ) - 1) :
    0 ≤ (runActions len acts s).currentIndex ∧
    (runActions len acts s).currentIndex ≤ (len : ℤ) - 1 := by
  induction acts generalizing s with
  | nil => simpa [runActions] using hs
  | cons a rest ih =>
      simp only [runActions, List.foldl_cons] at ih ⊢
      exact ih (fun b hb => hv b (List.mem_cons_of_mem a hb)) _
        (stepAction_preserves_range len h1 a (hv a (List.mem_cons_self a rest)) s hs)

/-- C9: every state reached from the initial state through keyboard actions,
range-bounded slider drags and timer firings keeps `currentIndex` an integer
in `[0, timesteps.length - 1]`; moreover Left arrow at index 0 leaves the
index at 0 and Right arrow at the last index leaves it at the last index. -/
theorem currentIndex_invariant (len : ℕ) (h1 : 1 ≤ len) (acts : List UIAction)
    (hv : ∀ a ∈ acts, validAction len a) :
    (0 ≤ (runActions len acts initialHomeState).currentIndex ∧
     (runActions len acts initialHomeState).currentIndex ≤ (len : ℤ) - 1) ∧
    (∀ s : HomeState, s.currentIndex = 0 →
      (keyStep len .arrowLeft s).currentIndex = 0) ∧
    (∀ s : HomeState, s.currentIndex = (len : ℤ) - 1 →
      (keyStep len .arrowRight s).currentIndex = (len : ℤ) - 1) := by
  have hlen : (1 : ℤ) ≤ (len : ℤ) := by exact_mod_cast h1
  refine ⟨runActions_preserves_range len h1 acts hv initialHomeState
      (by simp only [initialHomeState]; omega), ?_, ?_⟩
  · intro s hs
    simp only [keyStep, hs]
    decide
  · intro s hs
    simp only [keyStep, hs]
    exact min_eq_left (by omega)

/-- C9 witness: three timesteps, a Right arrow, a slider drag to 2 and a
timer firing. -/
theorem currentIndex_invariant_witness :
    0 ≤ (runActions 3 [UIAction.key .arrowRight, UIAction.slider 2,
          UIAction.timerTick] initialHomeState).currentIndex ∧
    (runActions 3 [UIAction.key .arrowRight, UIAction.slider 2,
          UIAction.timerTick] initialHomeState).currentIndex ≤ ((3 : ℕ) : ℤ) - 1 :=
  (currentIndex_invariant 3 (by decide)
    [UIAction.key .arrowRight, UIAction.slider 2, UIAction.timerTick]
    (by decide)).1

/-! ### C3 — no triangle-index validation in the deriver -/

/-- The flattened index buffer copies triangle `i` verbatim to positions
`3i`, `3i+1`, `3i+2`. -/
theorem idxArrayOf_getElem (tris : List Tri) (i : ℕ) (h : i < tris.length) :
    (idxArrayOf tris)[3 * i]? = some tris[i].1 ∧
    (idxArrayOf tris)[3 * i + 1]? = some tris[i].2.1 ∧
    (idxArrayOf tris)[3 * i + 2]? = some tris[i].2.2 := by
  induction tris generalizing i with
  | nil => simp at h
  | cons t rest ih =>
      cases i with
      | zero => simp [idxArrayOf]
      | succ j =>
          have hj : j < rest.length := by simpa using h
          obtain ⟨ih1, ih2, ih3⟩ := ih j hj
          have e : idxArrayOf (t :: rest) = t.1 :: t.2.1 :: t.2.2 :: idxArrayOf rest := by
            simp [idxArrayOf]
          refine ⟨?_, ?_, ?_⟩
          · rw [e, show 3 * (j + 1) = 3 * j + 1 + 1 + 1 by ring]
            simpa using ih1
          · rw [e, show 3 * (j + 1) + 1 = 3 * j + 1 + 1 + 1 + 1 by ring]
            simpa using ih2
          · rw [e, show 3 * (j + 1) + 2 = 3 * j + 2 + 1 + 1 + 1 by ring]
            simpa using ih3

/-- C3 counterexample: the claim says a triangle referencing nonexistent
points makes the derivation fail fast.  In the code there is no validation
at all: for a timestep with a single point and the triangle `(5, 6, 7)`,
construction succeeds and the index buffer references nonexistent points. -/
theorem derive_no_index_validation_counterexample :
    (derive id badTimestep .height).indices = [5, 6, 7] ∧
    5 ∈ (derive id badTimestep .height).indices ∧
    ¬ 5 < badTimestep.points.length := by
  refine ⟨?_, ?_, ?_⟩ <;> decide

/-- C3 (amended): the derivation is a total function that copies every
triangle's three components verbatim into the index buffer at positions
`3i`, `3i+1`, `3i+2`, performing no range validation — out-of-range indices
are passed through rather than raising any error. -/
theorem derive_indices_verbatim (msqrt : ℚ → ℚ) (ts : Timestep) (mode : ColorMode)
    (i : ℕ) (h : i < ts.triangles.length) :
    (derive msqrt ts mode).indices[3 * i]? = some ts.triangles[i].1 ∧
    (derive msqrt ts mode).indices[3 * i + 1]? = some ts.triangles[i].2.1 ∧
    (derive msqrt ts mode).indices[3 * i + 2]? = some ts.triangles[i].2.2 :=
  idxArrayOf_getElem ts.triangles i h

/-- C3 witness: the invalid triangle `(5, 6, 7)` of `badTimestep` is copied
verbatim. -/
theorem derive_indices_verbatim_witness :
    (derive id badTimestep .height).indices[3 * 0]? = some 5 ∧
    (derive id badTimestep .height).indices[3 * 0 + 1]? = some 6 ∧
    (derive id badTimestep .height).indices[3 * 0 + 2]? = some 7 := by
  have h := derive_indices_verbatim id badTimestep .height 0 (by decide)
  simpa [badTimestep] using h

/-! ### C6 — the `height` colormap -/

/-- Unfolding of the `height` branch of the per-vertex color assignment. -/
theorem vertexColor_height (msqrt : ℚ → ℚ) (zmin zrange : ℚ) (p : Point3) :
    vertexColor msqrt .height zmin zrange p =
      ((zOf p - zmin) / zrange * (9/10) + 1/10,
       3/10 + (4/10) * (1 - |(zOf p - zmin) / zrange - 1/2| * 2),
       (1 - (zOf p - zmin) / zrange) * (9/10) + 1/10) := rfl

/-- The `zMin` fold never rises above its initial accumulator. -/
theorem foldl_zmin_le_init (l : List Point3) (a : ℚ) :
    l.foldl (fun m q => if zOf q < m then zOf q else m) a ≤ a := by
  induction l generalizing a with
  | nil => simp
  | cons q rest ih =>
      simp only [List.foldl_cons]
      refine le_trans (ih _) ?_
      split_ifs with h
      · exact le_of_lt h
      · exact le_rfl

/-- The `zMin` fold is below the z of every scanned point. -/
theorem foldl_zmin_le_mem (l : List Point3) (a : ℚ) (p : Point3) (hp : p ∈ l) :
    l.foldl (fun m q => if zOf q < m then zOf q else m) a ≤ zOf p := by
  induction l generalizing a with
  | nil => simp at hp
  | cons q rest ih =>
      simp only [List.foldl_cons]
      rcases List.mem_cons.mp hp with h | h
      · subst h
        refine le_trans (foldl_zmin_le_init rest _) ?_
        split_ifs with hq
        · exact le_rfl
        · exact le_of_not_lt hq
      · exact ih _ h

/-- The `zMin` fold returns its accumulator or the z of a scanned point. -/
theorem foldl_zmin_attained (l : List Point3) (a : ℚ) :
    l.foldl (fun m q => if zOf q < m then zOf q else m) a = a ∨
      ∃ p ∈ l, l.foldl (fun m q => if zOf q < m then zOf q else m) a = zOf p := by
  induction l generalizing a with
  | nil => exact Or.inl rfl
  | cons q rest ih =>
      simp only [List.foldl_cons]
      rcases ih (if zOf q < a then zOf q else a) with h | ⟨p, hp, he⟩
      · rw [h]
        split_ifs with hq
        · exact Or.inr ⟨q, List.mem_cons_self q rest, rfl⟩
        · exact Or.inl rfl
      · exact Or.inr ⟨p, List.mem_cons_of_mem _ hp, he⟩

/-- The scan `zMinOf` is a lower bound on the z of every point. -/
theorem zMinOf_le (pts : List Point3) (p : Point3) (hp : p ∈ pts) :
    zMinOf pts ≤ zOf p := by
  cases pts with
  | nil => simp at hp
  | cons q rest =>
      rcases List.mem_cons.mp hp with h | h
      · subst h
        exact foldl_zmin_le_init rest _
      · exact foldl_zmin_le_mem rest _ p h

/-- The scan `zMinOf` of a nonempty point list is the z of one of its points. -/
theorem zMinOf_attained (pts : List Point3) (hne : pts ≠ []) :
    ∃ p ∈ pts, zMinOf pts = zOf p := by
  cases pts with
  | nil => exact absurd rfl hne
  | cons q rest =>
      rcases foldl_zmin_attained rest (zOf q) with h | ⟨p, hp, he⟩
      · exact ⟨q, List.mem_cons_self q rest, h⟩
      · exact ⟨p, List.mem_cons_of_mem _ hp, he⟩

/-- The `zMax` fold never falls below its initial accumulator. -/
theorem foldl_zmax_init_le (l : List Point3) (a : ℚ) :
    a ≤ l.foldl (fun m q => if m < zOf q then zOf q else m) a := by
  induction l generalizing a with
  | nil => simp
  | cons q rest ih =>
      simp only [List.foldl_cons]
      refine le_trans ?_ (ih _)
      split_ifs with h
      · exact le_of_lt h
      · exact le_rfl

/-- The `zMax` fold is above the z of every scanned point. -/
theorem foldl_zmax_mem_le (l : List Point3) (a : ℚ) (p : Point3) (hp : p ∈ l) :
    zOf p ≤ l.foldl (fun m q => if m < zOf q then zOf q else m) a := by
  induction l generalizing a with
  | nil => simp at hp
  | cons q rest ih =>
      simp only [List.foldl_cons]
      rcases List.mem_cons.mp hp with h | h
      · subst h
        refine le_trans ?_ (foldl_zmax_init_le rest _)
        split_ifs with hq
        · exact le_rfl
        · exact le_of_not_lt hq
      · exact ih _ h

/-- The `zMax` fold returns its accumulator or the z of a scanned point. -/
theorem foldl_zmax_attained (l : List Point3) (a : ℚ) :
    l.foldl (fun m q => if m < zOf q then zOf q else m) a = a ∨
      ∃ p ∈ l, l.foldl (fun m q => if m < zOf q then zOf q else m) a = zOf p := by
  induction l generalizing a with
  | nil => exact Or.inl rfl
  | cons q rest ih =>
      simp only [List.foldl_cons]
      rcases ih (if a < zOf q then zOf q else a) with h | ⟨p, hp, he⟩
      · rw [h]
        split_ifs with hq
        · exact Or.inr ⟨q, List.mem_cons_self q rest, rfl⟩
        · exact Or.inl rfl
      · exact Or.inr ⟨p, List.mem_cons_of_mem _ hp, he⟩

/-- The scan `zMaxOf` is an upper bound on the z of every point. -/
theorem le_zMaxOf (pts : List Point3) (p : Point3) (hp : p ∈ pts) :
    zOf p ≤ zMaxOf pts := by
  cases pts with
  | nil => simp at hp
  | cons q rest =>
      rcases List.mem_cons.mp hp with h | h
      · subst h
        exact foldl_zmax_init_le rest _
      · exact foldl_zmax_mem_le rest _ p h

/-- The scan `zMaxOf` of a nonempty point list is the z of one of its points. -/
theorem zMaxOf_attained (pts : List Point3) (hne : pts ≠ []) :
    ∃ p ∈ pts, zMaxOf pts = zOf p := by
  cases pts with
  | nil => exact absurd rfl hne
  | cons q rest =>
      rcases foldl_zmax_attained rest (zOf q) with h | ⟨p, hp, he⟩
      · exact ⟨q, List.mem_cons_self q rest, h⟩
      · exact ⟨p, List.mem_cons_of_mem _ hp, he⟩

/-- C6 counterexample: in a timestep whose vertices all share the same z
(here the single point `(0, 0, 5)`), the maximum-z vertex receives first
color component `0.1`, not `1.0` — the claim's unconditional max-z clause
fails in the zero-range case that the claim itself describes. -/
theorem height_max_vertex_counterexample :
    ((0 : ℚ), (0 : ℚ), (5 : ℚ)) ∈ constZPts ∧
    (∀ q ∈ constZPts, zOf q ≤ zOf ((0 : ℚ), (0 : ℚ), (5 : ℚ))) ∧
    (vertexColor id .height (zMinOf constZPts) (zRangeOf constZPts)
        ((0 : ℚ), (0 : ℚ), (5 : ℚ))).1 = 1/10 ∧
    ((1 : ℚ)/10) ≠ 1 := by
  refine ⟨by decide, by decide, ?_, by norm_num⟩
  rw [vertexColor_height]
  norm_num [constZPts, zMinOf, zMaxOf, zRangeOf, zOf]

/-- C6 (amended): under `height` mode every vertex's color equals
`(0.1 + 0.9t, 0.3 + 0.4(1 - 2|t - 0.5|), 0.1 + 0.9(1 - t))` with
`t = (z - zMin) / zRange`; the minimum-z vertex's first component is `0.1`;
the maximum-z vertex's first component is `1.0` whenever the z-range is
nonzero (in the zero-range case it is `0.1` like every other vertex); and
when all vertices share the same z every vertex receives the identical
color. -/
theorem height_colormap_spec (msqrt : ℚ → ℚ) (pts : List Point3) :
    (∀ p ∈ pts,
       vertexColor msqrt .height (zMinOf pts) (zRangeOf pts) p =
         (1/10 + (9/10) * ((zOf p - zMinOf pts) / zRangeOf pts),
          3/10 + (4/10) * (1 - 2 * |(zOf p - zMinOf pts) / zRangeOf pts - 1/2|),
          1/10 + (9/10) * (1 - (zOf p - zMinOf pts) / zRangeOf pts))) ∧
    (∀ p ∈ pts, (∀ q ∈ pts, zOf p ≤ zOf q) →
       (vertexColor msqrt .height (zMinOf pts) (zRangeOf pts) p).1 = 1/10) ∧
    (zMinOf pts ≠ zMaxOf pts →
       ∀ p ∈ pts, (∀ q ∈ pts, zOf q ≤ zOf p) →
         (vertexColor msqrt .height (zMinOf pts) (zRangeOf pts) p).1 = 1) ∧
    ((∀ p ∈ pts, ∀ q ∈ pts, zOf p = zOf q) →
       ∀ p ∈ pts, ∀ q ∈ pts,
         vertexColor msqrt .height (zMinOf pts) (zRangeOf pts) p =
           vertexColor msqrt .height (zMinOf pts) (zRangeOf pts) q) := by
  refine ⟨?_, ?_, ?_, ?_⟩
  · intro p hp
    rw [vertexColor_height]
    refine Prod.ext (by ring) (Prod.ext (by ring) (by ring))
  · intro p hp hmin
    have h1 : zMinOf pts ≤ zOf p := zMinOf_le pts p hp
    have h2 : zOf p ≤ zMinOf pts := by
      obtain ⟨p₀, hp₀, he⟩ := zMinOf_attained pts (List.ne_nil_of_mem hp)
      rw [he]
      exact hmin p₀ hp₀
    rw [vertexColor_height]
    simp only [le_antisymm h2 h1, sub_self, zero_div]
    ring
  · intro hne p hp hmax
    have h1 : zOf p ≤ zMaxOf pts := le_zMaxOf pts p hp
    have h2 : zMaxOf pts ≤ zOf p := by
      obtain ⟨p₀, hp₀, he⟩ := zMaxOf_attained pts (List.ne_nil_of_mem hp)
      rw [he]
      exact hmax p₀ hp₀
    have hzr : zRangeOf pts = zMaxOf pts - zMinOf pts := by
      rw [zRangeOf, if_neg (sub_ne_zero.mpr (Ne.symm hne))]
    rw [vertexColor_height]
    simp only [hzr, le_antisymm h1 h2]
    rw [div_self (sub_ne_zero.mpr (Ne.symm hne))]
    ring
  · intro hall p hp q hq
    rw [vertexColor_height, vertexColor_height, zOf, zOf, ← zOf, ← zOf,
      hall p hp q hq]

/-- C6 witness: two points with z `0` and `2` — the minimum-z vertex's first
component is `0.1` and the maximum-z vertex's is `1.0`. -/
theorem height_colormap_spec_witness :
    (vertexColor id .height (zMinOf twoZPts) (zRangeOf twoZPts)
        ((0 : ℚ), (0 : ℚ), (0 : ℚ))).1 = 1/10 ∧
    (vertexColor id .height (zMinOf twoZPts) (zRangeOf twoZPts)
        ((0 : ℚ), (0 : ℚ), (2 : ℚ))).1 = 1 := by
  have h := height_colormap_spec id twoZPts
  exact ⟨h.2.1 _ (by decide) (by decide), h.2.2.1 (by decide) _ (by decide) (by decide)⟩

/-! ### Loader lemmas -/

/-- The running totals are the partial sums of the chunk lengths. -/
theorem cumSums_getElem (acc : ℕ) (l : List ℕ) (i : ℕ) (h : i < l.length) :
    (cumSums acc l)[i]? = some (acc + (l.take (i + 1)).sum) := by
  induction l generalizing acc i with
  | nil => simp at h
  | cons c rest ih =>
      cases i with
      | zero => simp [cumSums]
      | succ j =>
          have hj : j < rest.length := by simpa using h
          simpa [cumSums, List.take_succ_cons, Nat.add_assoc] using ih (acc + c) j hj

/-- The running totals are monotonically non-decreasing. -/
theorem chain_le_cumSums (acc : ℕ) (l : List ℕ) :
    List.Chain' (· ≤ ·) (cumSums acc l) := by
  induction l generalizing acc with
  | nil => simp [cumSums]
  | cons c rest ih =>
      cases rest with
      | nil => simp [cumSums]
      | cons c2 r2 =>
          have h := ih (acc + c)
          simp only [cumSums] at h ⊢
          exact List.chain'_cons.mpr ⟨by omega, h⟩

/-- Every running total is at most the total byte count. -/
theorem cumSums_mem_le (acc : ℕ) (l : List ℕ) (x : ℕ) (hx : x ∈ cumSums acc l) :
    x ≤ acc + l.sum := by
  induction l generalizing acc with
  | nil => simp [cumSums] at hx
  | cons c rest ih =>
      simp only [cumSums, List.mem_cons] at hx
      rcases hx with h | h
      · subst h
        simp only [List.sum_cons]
        omega
      · have := ih (acc + c) h
        simp only [List.sum_cons]
        omega

/-- Extracting progress values from a trace distributes over append. -/
theorem progressValues_append (l1 l2 : List LoadEvent) :
    progressValues (l1 ++ l2) = progressValues l1 ++ progressValues l2 := by
  induction l1 with
  | nil => simp [progressValues]
  | cons e rest ih => cases e <;> simp [progressValues, ih]

/-- Extracting progress values from a list of pure progress events recovers
the mapped values. -/
theorem progressValues_map_progress {α : Type _} (g : α → ℚ) (l : List α) :
    progressValues (l.map (fun c => LoadEvent.progress (g c))) = l.map g := by
  induction l with
  | nil => rfl
  | cons c rest ih => simp only [List.map_cons, progressValues, ih]

/-- The progress values of the chunked-read reports are
`10 + (received / total) * 80` for each running total `received`. -/
theorem progressValues_chunkProgress (total : ℕ) (ch : List ℕ) :
    progressValues (chunkProgress total ch) =
      (cumSums 0 ch).map (fun c : ℕ => 10 + ((c : ℚ) / (total : ℚ)) * 80) := by
  rw [chunkProgress]
  exact progressValues_map_progress _ _

/-! ### C4 — fallback path without content length -/

/-- C4: for an OK response exposing no `content-length` header and carrying a
well-formed payload, `loadData` performs the single whole-payload fallback:
its event trace is exactly the initial `10`, the dataset publication, and a
single jump to `100` — no intermediate per-chunk progress is ever
reported. -/
theorem fallback_load_single_jump (r : Response) (d : MeshData)
    (hok : r.ok = true) (hcl : r.contentLength = none) (hp : r.payload = some d) :
    loadData r = ([.progress 10, .dataSet, .progress 100], none) ∧
    progressValues (loadData r).1 = [10, 100] := by
  have h : loadData r = ([.progress 10, .dataSet, .progress 100], none) := by
    simp [loadData, hok, hcl, hp]
  refine ⟨h, ?_⟩
  rw [h]
  simp [progressValues]

/-- C4 witness: the concrete header-less OK response. -/
theorem fallback_load_single_jump_witness :
    loadData rNoLength = ([.progress 10, .dataSet, .progress 100], none) ∧
    progressValues (loadData rNoLength).1 = [10, 100] :=
  fallback_load_single_jump rNoLength sampleMeshData rfl rfl rfl

/-! ### C7 — error policy -/

/-- C7: a non-success status makes the load fail with an error carrying the
status code, and a malformed payload makes it fail with a parse error; in
both cases the error is the function's result (reported, not swallowed), the
attempt is over (the one-shot call returns), and no dataset — partial or
otherwise — is ever published. -/
theorem load_error_policy (r : Response) :
    (r.ok = false →
      loadData r = ([.progress 10], some (.network r.status)) ∧
      LoadEvent.dataSet ∉ (loadData r).1) ∧
    (r.ok = true → r.payload = none →
      (loadData r).2 = some .parse ∧
      LoadEvent.dataSet ∉ (loadData r).1) := by
  constructor
  · intro hok
    have h : loadData r = ([.progress 10], some (.network r.status)) := by
      simp [loadData, hok]
    refine ⟨h, ?_⟩
    rw [h]
    simp
  · intro hok hp
    by_cases hc : r.contentLength.getD 0 ≠ 0 ∧ r.hasBody = true
    · have h : loadData r =
          (.progress 10 :: chunkProgress (r.contentLength.getD 0) r.chunks ++
            [.progress 95], some .parse) := by
        simp [loadData, hok, hp, hc.1, hc.2]
      refine ⟨by rw [h], ?_⟩
      rw [h]
      simp [chunkProgress]
    · have h : loadData r = ([.progress 10], some .parse) := by
        simp only [loadData, hok, hp]
        rw [if_neg (by simp [hok]), if_neg hc]
      exact ⟨by rw [h], by rw [h]; simp⟩

/-- C7 witness: the 404 response and the malformed-payload response. -/
theorem load_error_policy_witness :
    loadData rNotFound = ([.progress 10], some (.network rNotFound.status)) ∧
    (loadData rMalformed).2 = some .parse ∧
    LoadEvent.dataSet ∉ (loadData rMalformed).1 :=
  ⟨((load_error_policy rNotFound).1 rfl).1, (load_error_policy rMalformed).2 rfl rfl⟩

/-! ### C5 — chunked streaming progress -/

/-- C5: for an OK response with declared content length `L > 0` whose chunks
sum to `L` and whose payload parses, the event trace is the initial `10`,
one report `10 + (received / L) * 80` per chunk (where `received` is the
running byte total), then `95`, then the dataset publication, then `100`;
the reported progress sequence is monotonically non-decreasing and its final
value is exactly `100`. -/
theorem streaming_load_progress (r : Response) (L : ℕ) (d : MeshData)
    (hok : r.ok = true) (hcl : r.contentLength = some L) (hL : 0 < L)
    (hbody : r.hasBody = true) (hsum : r.chunks.sum = L) (hp : r.payload = some d) :
    (loadData r).1 =
      .progress 10 :: (chunkProgress L r.chunks ++
        [.progress 95, .dataSet, .progress 100]) ∧
    (loadData r).2 = none ∧
    (∀ i, i < r.chunks.length →
      (progressValues (chunkProgress L r.chunks))[i]? =
        some (10 + (((r.chunks.take (i + 1)).sum : ℚ) / (L : ℚ)) * 80)) ∧
    List.Chain' (· ≤ ·) (progressValues (loadData r).1) ∧
    (progressValues (loadData r).1).getLast? = some 100 := by
  have hLne : L ≠ 0 := hL.ne'
  have hLQ : (0 : ℚ) < (L : ℚ) := by exact_mod_cast hL
  have htr : loadData r =
      (.progress 10 :: (chunkProgress L r.chunks ++
         [.progress 95, .dataSet, .progress 100]), none) := by
    simp [loadData, hok, hcl, hbody, hp, hLne]
  have hpv : progressValues (loadData r).1 =
      10 :: ((cumSums 0 r.chunks).map (fun c : ℕ => 10 + ((c : ℚ) / (L : ℚ)) * 80) ++
        [95, 100]) := by
    rw [htr]
    show progressValues (LoadEvent.progress 10 :: (chunkProgress L r.chunks ++
      [.progress 95, .dataSet, .progress 100])) = _
    rw [progressValues, progressValues_append, progressValues_chunkProgress]
    rfl
  have hbound : ∀ c ∈ cumSums 0 r.chunks,
      10 + ((c : ℚ) / (L : ℚ)) * 80 ≤ 95 := by
    intro c hc
    have hcle : c ≤ L := by
      have := cumSums_mem_le 0 r.chunks c hc
      omega
    have hcast : (c : ℚ) ≤ (L : ℚ) := by exact_mod_cast hcle
    have hdiv : (c : ℚ) / (L : ℚ) ≤ 1 := by
      rw [div_le_one hLQ]
      exact hcast
    nlinarith
  refine ⟨by rw [htr], by rw [htr], ?_, ?_, ?_⟩
  · intro i hi
    rw [progressValues_chunkProgress, List.getElem?_map, cumSums_getElem 0 r.chunks i hi]
    simp
  · rw [hpv, List.chain'_cons']
    constructor
    · intro b hb
      cases hcs : cumSums 0 r.chunks with
      | nil =>
          rw [hcs] at hb
          simp only [List.map_nil, List.nil_append, List.head?_cons,
            Option.mem_def, Option.some.injEq] at hb
          rw [← hb]
          norm_num
      | cons c cs =>
          rw [hcs] at hb
          simp only [List.map_cons, List.cons_append, List.head?_cons,
            Option.mem_def, Option.some.injEq] at hb
          rw [← hb]
          have hc0 : (0 : ℚ) ≤ (c : ℚ) / (L : ℚ) * 80 := by positivity
          linarith
    · refine List.Chain'.append ?_ ?_ ?_
      · refine List.chain'_map_of_chain' _ ?_ (chain_le_cumSums 0 r.chunks)
        intro a b hab
        have hcast : (a : ℚ) ≤ (b : ℚ) := by exact_mod_cast hab
        have h80 : (0 : ℚ) ≤ 80 / (L : ℚ) := by positivity
        calc 10 + (a : ℚ) / (L : ℚ) * 80 = 10 + (a : ℚ) * (80 / (L : ℚ)) := by ring
          _ ≤ 10 + (b : ℚ) * (80 / (L : ℚ)) := by nlinarith
          _ = 10 + (b : ℚ) / (L : ℚ) * 80 := by ring
      · refine List.chain'_cons.mpr ⟨by norm_num, ?_⟩
        simp
      · intro x hx y hy
        simp only [List.head?_cons, Option.mem_def, Option.some.injEq] at hy
        rw [← hy]
        obtain ⟨hne', hx'⟩ := List.mem_getLast?_eq_getLast hx
        have hmem := List.getLast_mem hne'
        rw [← hx'] at hmem
        obtain ⟨c, hc, hfc⟩ := List.mem_map.mp hmem
        rw [← hfc]
        exact hbound c hc
  · rw [hpv]
    show (([10] ++ ((cumSums 0 r.chunks).map
        (fun c : ℕ => 10 + ((c : ℚ) / (L : ℚ)) * 80) ++ [95, 100])) : List ℚ).getLast? =
      some 100
    rw [List.getLast?_append_of_ne_nil _ (by simp),
      List.getLast?_append_of_ne_nil _ (by simp)]
    rfl

/-- C5 witness: content length 4, chunks of 1 and 3 bytes. -/
theorem streaming_load_progress_witness :
    List.Chain' (· ≤ ·) (progressValues (loadData rStream).1) ∧
    (progressValues (loadData rStream).1).getLast? = some 100 := by
  have h := streaming_load_progress rStream 4 sampleMeshData rfl rfl (by decide)
    rfl (by decide) rfl
  exact ⟨h.2.2.2.1, h.2.2.2.2⟩

end AVS
